import Mathlib

/-!
# Verification of the mdpo Markdown utilities (`mdpo/md.py`)

A shallow embedding of the functions in `mdpo/md.py`:

* the regular-expression helpers `LINK_REFERENCE_RE`, `LINK_REFERENCED_LINK_RE`
  and the regex used by `escape_links_titles`, embedded as executable matchers
  with Python `re` backtracking semantics;
* `escape_links_titles`;
* the `MarkdownSpanWrapper` class (state, `enter_span`, `leave_span`, `text`,
  and the final flush performed by `wrap`), driven by an explicit stream of
  parser events standing for the md4c callback protocol;
* `solve_link_reference_targets`.

Strings are Lean `String`s; the Python string primitives used by the source
(`split`, `rstrip`, `replace`, slicing) are defined below by recursion on the
underlying character list, mirroring Python semantics.
-/

namespace Mdpo

/-! ## Python string primitives -/

/-- Character-list version of Python `str.split(sep)` for a one-character
separator: splits at every occurrence, keeping empty pieces. -/
def splitOnChar (sep : Char) : List Char → List (List Char)
  | [] => [[]]
  | c :: cs =>
    if c = sep then [] :: splitOnChar sep cs
    else (splitOnChar sep cs).modifyHead (fun p => c :: p)

/-- Joining with a one-character separator; the inverse of `splitOnChar`. -/
def joinWithChar (sep : Char) : List (List Char) → List Char
  | [] => []
  | [p] => p
  | p :: ps => p ++ sep :: joinWithChar sep ps

/-- Python `text.split(sep)` for a one-character separator, on `String`. -/
def pySplitChar (sep : Char) (s : String) : List String :=
  (splitOnChar sep s.data).map String.mk

/-- Python `sep.join(pieces)` for the one-character separator `sep`. -/
def pyJoinChar (sep : Char) (pieces : List String) : String :=
  String.mk (joinWithChar sep (pieces.map String.data))

/-- Character-list version of Python `str.rstrip(chars)`: removes all trailing
characters belonging to `chars`. -/
def rstripChars (chars : List Char) (l : List Char) : List Char :=
  (l.reverse.dropWhile (fun c => chars.contains c)).reverse

/-- Python `s.rstrip(chars)` on `String`. -/
def pyRstrip (chars : List Char) (s : String) : String :=
  String.mk (rstripChars chars s.data)

/-- Python `s[:-1]` on `String`. -/
def pyDropLast (s : String) : String :=
  String.mk s.data.dropLast

/-- The last character of a string, if any (Python `s[-1]`, which raises on an
empty string; call sites guard against that case). -/
def strLast (s : String) : Option Char :=
  s.data.getLast?

/-- The first character of a string, with a placeholder default for the empty
string (Python `s[0]` raises there; the configuration never stores an empty
delimiter). -/
def strHead (s : String) : Char :=
  s.data.headD ' '

/-- Whether a string starts with the given character (Python `s[0] == c`;
Python raises on the empty string, which here yields `false`). -/
def strHeadIs (c : Char) (s : String) : Bool :=
  match s.data with
  | [] => false
  | x :: _ => x = c

/-- Python `s[0]` as a one-character string (`kwargs.get(...)[0]` in
`MarkdownSpanWrapper.__init__`). -/
def pyFirstCharString (s : String) : String :=
  String.mk (s.data.take 1)

/-- Character-list version of Python `str.replace(pat, rep)`: replaces every
non-overlapping occurrence, scanning left to right.  The first argument is
fuel, instantiated with the length of the list (each step consumes at least
one character, so the fuel never runs out). -/
def pyReplaceAux (pat rep : List Char) : Nat → List Char → List Char
  | _, [] => []
  | 0, l => l
  | fuel + 1, c :: cs =>
    if pat.isPrefixOf (c :: cs) then
      rep ++ pyReplaceAux pat rep fuel (List.drop (pat.length - 1) cs)
    else
      c :: pyReplaceAux pat rep fuel cs

/-- Python `s.replace(pat, rep)` (all occurrences) on `String`. -/
def pyReplace (s pat rep : String) : String :=
  String.mk (pyReplaceAux pat.data rep.data s.data.length s.data)

/-- Replacement of only the first occurrence, used to state the spec's
"replace the first literal occurrence" wording for comparison with the
code's `str.replace` (which replaces all occurrences). -/
def replaceFirstChars (pat rep : List Char) : List Char → List Char
  | [] => []
  | c :: cs =>
    if pat.isPrefixOf (c :: cs) then rep ++ List.drop (pat.length - 1) cs
    else c :: replaceFirstChars pat rep cs

/-- `replaceFirstChars` on `String`. -/
def pyReplaceFirst (s pat rep : String) : String :=
  String.mk (replaceFirstChars pat.data rep.data s.data)

/-- Python truthiness of an optional string (`None` and `""` are falsy). -/
def optTruthy (o : Option String) : Bool :=
  o.getD "" ≠ ""

/-- Python whitespace (the ASCII characters matched by `\s` and stripped by
`str.strip`); the texts handled by mdpo are ASCII-whitespace only. -/
def isPyWs (c : Char) : Bool :=
  c = ' ' || c = '\t' || c = '\n' || c = '\r' || c = '\x0b' || c = '\x0c'

/-! ### Basic lemmas about the string primitives -/

theorem string_data_append (a b : String) : (a ++ b).data = a.data ++ b.data := by
  cases a; cases b; rfl

theorem string_empty_append (s : String) : "" ++ s = s := by
  cases s; rfl

theorem string_mk_data (s : String) : String.mk s.data = s := rfl

theorem splitOnChar_ne_nil (sep : Char) (l : List Char) : splitOnChar sep l ≠ [] := by
  induction l with
  | nil => simp [splitOnChar]
  | cons c cs ih =>
    unfold splitOnChar
    by_cases h : c = sep
    · simp [h]
    · simp only [if_neg h]
      cases hs : splitOnChar sep cs with
      | nil => exact absurd hs ih
      | cons p ps => simp

theorem joinWithChar_splitOnChar (sep : Char) (l : List Char) :
    joinWithChar sep (splitOnChar sep l) = l := by
  induction l with
  | nil => rfl
  | cons c cs ih =>
    unfold splitOnChar
    cases hs : splitOnChar sep cs with
    | nil => exact absurd hs (splitOnChar_ne_nil sep cs)
    | cons p ps =>
      rw [hs] at ih
      by_cases h : c = sep
      · subst h
        simp only [if_pos rfl]
        cases ps with
        | nil => simpa [joinWithChar] using ih
        | cons q qs => simpa [joinWithChar] using ih
      · simp only [if_neg h, List.modifyHead]
        cases ps with
        | nil => simpa [joinWithChar] using congrArg (c :: ·) ih
        | cons q qs => simpa [joinWithChar] using congrArg (c :: ·) ih

theorem splitOnChar_of_not_mem {sep : Char} {l : List Char} (h : sep ∉ l) :
    splitOnChar sep l = [l] := by
  induction l with
  | nil => rfl
  | cons c cs ih =>
    have hc : c ≠ sep := fun e => h (e ▸ List.mem_cons_self c cs)
    have hcs : sep ∉ cs := fun e => h (List.mem_cons_of_mem c e)
    unfold splitOnChar
    rw [ih hcs]
    simp [hc]

theorem modifyHead_append_of_ne_nil (f : List Char → List Char)
    (a b : List (List Char)) (h : a ≠ []) :
    (a ++ b).modifyHead f = a.modifyHead f ++ b := by
  cases a with
  | nil => exact absurd rfl h
  | cons x xs => simp [List.modifyHead]

theorem splitOnChar_append_sep (sep : Char) (l₁ l₂ : List Char) :
    splitOnChar sep (l₁ ++ sep :: l₂) =
      splitOnChar sep l₁ ++ splitOnChar sep l₂ := by
  induction l₁ with
  | nil => simp [splitOnChar]
  | cons c cs ih =>
    have hc : ∀ ds, splitOnChar sep (c :: ds) =
        if c = sep then [] :: splitOnChar sep ds
        else (splitOnChar sep ds).modifyHead (fun p => c :: p) := fun _ => rfl
    rw [List.cons_append, hc, hc, ih]
    by_cases h : c = sep
    · simp [h]
    · simp only [if_neg h]
      exact modifyHead_append_of_ne_nil _ _ _ (splitOnChar_ne_nil sep cs)

example : pySplitChar ' ' "aa b  c" = ["aa", "b", "", "c"] := by decide
example : pyJoinChar ' ' ["aa", "b", "", "c"] = "aa b  c" := by decide
example : pyReplace "[b][r] x [b][r]" "[b][r]" "Q" = "Q x Q" := by decide
example : pyReplaceFirst "[b][r] x [b][r]" "[b][r]" "Q" = "Q x [b][r]" := by decide
example : pyRstrip [' ', '['] "ab [ [" = "ab" := by decide

/-! ## The regular expressions of `mdpo/md.py`

The three patterns are embedded as executable matchers with the exact
backtracking behaviour of Python `re` on these patterns (greedy character
classes; a greedy run followed by a mandatory character can never recover by
shrinking, because every shorter split leaves a character excluded by the
following atom, with the single exception of the optional `<?` before the
target of `LINK_REFERENCE_RE`, which is handled explicitly below).
-/

/-- The apostrophe character (one of the title openers accepted by
`LINK_REFERENCE_RE`). -/
def aposChar : Char := Char.ofNat 39

/-- The groups captured by `LINK_REFERENCE_RE`: label, target, optional
title. -/
abbrev RefGroups := String × String × Option String

/-- Tail of `LINK_REFERENCE_RE` after the target group:
`>?\s*["'\(]?([^"'\)]+)?`.  Returns the optional title group. -/
def refTitleGroup (rest : List Char) : Option String :=
  let rest1 := match rest with
    | '>' :: r => r
    | r => r
  let rest2 := rest1.dropWhile isPyWs
  let rest3 := match rest2 with
    | c :: r => if c = '"' || c = aposChar || c = '(' then r else rest2
    | [] => []
  let title := rest3.takeWhile (fun c => c ≠ '"' && c ≠ aposChar && c ≠ ')')
  if title = [] then none else some (String.mk title)

/-- Whether a character can belong to the target group `[^\s>]+`. -/
def isRefTargetChar (c : Char) : Bool :=
  !isPyWs c && c ≠ '>'

/-- `re.search(LINK_REFERENCE_RE, s)` where
`LINK_REFERENCE_RE = ^\s{0,3}\[([^\]]+)\]:\s+<?([^\s>]+)>?\s*["'\(]?([^"'\)]+)?`
(the pattern is anchored, so searching equals matching at position 0).
Returns `match.groups()` on success. -/
def linkReferenceMatch (s : String) : Option RefGroups :=
  let l := s.data
  let lead := l.takeWhile isPyWs
  if lead.length > 3 then none
  else
    match l.drop lead.length with
    | '[' :: rest =>
      let label := rest.takeWhile (fun c => c ≠ ']')
      if label = [] then none
      else
        match rest.drop label.length with
        | ']' :: ':' :: rest2 =>
          let ws := rest2.takeWhile isPyWs
          if ws = [] then none
          else
            let rest3 := rest2.drop ws.length
            match rest3 with
            | '<' :: rest4 =>
              let run1 := rest4.takeWhile isRefTargetChar
              if run1 ≠ [] then
                some (String.mk label, String.mk run1,
                  refTitleGroup (rest4.drop run1.length))
              else
                -- backtrack: `<?` matches the empty string and `<` itself is a
                -- legal target character, so the target run restarts at `<`
                let run2 := rest3.takeWhile isRefTargetChar
                some (String.mk label, String.mk run2,
                  refTitleGroup (rest3.drop run2.length))
            | _ =>
              let run := rest3.takeWhile isRefTargetChar
              if run = [] then none
              else
                some (String.mk label, String.mk run,
                  refTitleGroup (rest3.drop run.length))
        | _ => none
    | _ => none

/-- One attempt of `LINK_REFERENCED_LINK_RE = \[([^\]]+)\]\[([^\]\s]+)\]` at
the head of the list.  On success returns the two groups and the suffix after
the match. -/
def matchLinkUsageAt (l : List Char) : Option ((String × String) × List Char) :=
  match l with
  | '[' :: rest =>
    let disp := rest.takeWhile (fun c => c ≠ ']')
    if disp = [] then none
    else
      match rest.drop disp.length with
      | ']' :: '[' :: rest2 =>
        let lab := rest2.takeWhile (fun c => c ≠ ']' && !isPyWs c)
        if lab = [] then none
        else
          match rest2.drop lab.length with
          | ']' :: rest3 => some ((String.mk disp, String.mk lab), rest3)
          | _ => none
      | _ => none
  | _ => none

/-- One attempt of the `escape_links_titles` pattern
`(\[[^\]]+\]\([^\s]+\s)([^\)]+)` (with the default `[`/`]` delimiters used at
every call site) at the head of the list.  On success returns the two groups
and the suffix after the match. -/
def matchTitleAt (l : List Char) : Option ((List Char × List Char) × List Char) :=
  match l with
  | '[' :: rest =>
    let disp := rest.takeWhile (fun c => c ≠ ']')
    if disp = [] then none
    else
      match rest.drop disp.length with
      | ']' :: '(' :: rest2 =>
        let href := rest2.takeWhile (fun c => !isPyWs c)
        if href = [] then none
        else
          match rest2.drop href.length with
          | w :: rest3 =>
            if isPyWs w then
              let payload := rest3.takeWhile (fun c => c ≠ ')')
              if payload = [] then none
              else
                some (('[' :: disp ++ ']' :: '(' :: href ++ [w], payload),
                  rest3.drop payload.length)
            else none
          | [] => none
      | _ => none
  | _ => none

/-- `re.findall` scanning: try the matcher at every position from the left,
skipping past each (non-overlapping) match.  The fuel is instantiated with
the length of the list; every step consumes at least one character. -/
def findallAux {α : Type} (matchFn : List Char → Option (α × List Char)) :
    Nat → List Char → List α
  | _, [] => []
  | 0, _ => []
  | fuel + 1, c :: cs =>
    match matchFn (c :: cs) with
    | some (a, rest) => a :: findallAux matchFn fuel rest
    | none => findallAux matchFn fuel cs

/-- `re.findall(LINK_REFERENCED_LINK_RE, s)`. -/
def findallLinks (s : String) : List (String × String) :=
  findallAux matchLinkUsageAt s.data.length s.data

/-- `re.findall` for the `escape_links_titles` pattern. -/
def findallTitles (s : String) : List (List Char × List Char) :=
  findallAux matchTitleAt s.data.length s.data

example : linkReferenceMatch "[r]: /page \"Title\"" =
    some ("r", "/page", some "Title") := by decide
example : linkReferenceMatch " [r]: /a" = some ("r", "/a", none) := by decide
example : linkReferenceMatch "    [r]: /a" = none := by decide
example : linkReferenceMatch "[r]: <>" = some ("r", "<", none) := by decide
example : linkReferenceMatch "[r]: [b][r]" = some ("r", "[b][r]", none) := by decide
example : findallLinks "[a][r] x [b][r]" = [("a", "r"), ("b", "r")] := by decide
example : findallLinks "[r]: /t" = [] := by decide
example : findallLinks "[r]: [b][r]" = [("b", "r")] := by decide
example : findallTitles "[a](h \"x\"y\") t" =
    [(("[a](h ").data, ("\"x\"y\"").data)] := by decide

/-! ## `escape_links_titles` -/

/-- Escaping of `"` characters: Python `payload.replace('"', '\\"')`. -/
def escQuotes : List Char → List Char
  | [] => []
  | c :: cs => if c = '"' then '\\' :: '"' :: escQuotes cs else c :: escQuotes cs

/-- The rewritten form of a matched title payload:
`'"%s"' % (match[1][1:-1].replace('"', '\\"'))`. -/
def titleRewrite (payload : List Char) : List Char :=
  '"' :: escQuotes ((payload.drop 1).dropLast) ++ ['"']

/-- `escape_links_titles(text)` from `mdpo/md.py` (with the default
`link_start_string='['` and `link_end_string=']'`, which every call site
uses): for each match of the title pattern, globally replace
`match[0] + match[1]` by `match[0]` followed by the re-quoted escaped
payload. -/
def escape_links_titles (text : String) : String :=
  (findallTitles text).foldl
    (fun t m => pyReplace t (String.mk (m.1 ++ m.2)) (String.mk (m.1 ++ titleRewrite m.2)))
    text

/-- Follows the spec's words, for comparison with `escape_links_titles`:
"rewrites the title payload of every link-title match in the input text",
i.e. every match found in the input has its payload escaped and re-wrapped in
place (the string is rebuilt around the matches instead of using global
replacement). -/
def escapeTitlesSpecAux : Nat → List Char → List Char
  | _, [] => []
  | 0, l => l
  | fuel + 1, c :: cs =>
    match matchTitleAt (c :: cs) with
    | some ((g1, g2), rest) => g1 ++ titleRewrite g2 ++ escapeTitlesSpecAux fuel rest
    | none => c :: escapeTitlesSpecAux fuel cs

/-- String version of `escapeTitlesSpecAux`. -/
def escape_links_titles_per_match (text : String) : String :=
  String.mk (escapeTitlesSpecAux text.data.length text.data)

example : escape_links_titles "[a link](href \"title with characters to escape \"\")" =
    "[a link](href \"title with characters to escape \\\"\")" := by decide

/-! ## `solve_link_reference_targets` -/

/-- A retained definition pair: the groups parsed from the msgid and from the
msgstr of one catalog entry. -/
abbrev RefPair := RefGroups × RefGroups

/-- The definition-discovery part of the first loop of
`solve_link_reference_targets`: an entry contributes a pair when its msgid
starts with `[` (the code's fast-path filter) and both msgid and msgstr match
`LINK_REFERENCE_RE`. -/
def discoverPairs : List (String × String) → List RefPair
  | [] => []
  | (msgid, msgstr) :: rest =>
    (if strHeadIs '[' msgid then
      match linkReferenceMatch msgid with
      | some g1 =>
        match linkReferenceMatch msgstr with
        | some g2 => [(g1, g2)]
        | none => []
      | none => []
    else []) ++ discoverPairs rest

/-- The usage-discovery part of the first loop: entries with
`LINK_REFERENCED_LINK_RE` matches on both sides are queued, together with
their match lists. -/
def discoverQueued :
    List (String × String) →
      List (String × String × List (String × String) × List (String × String))
  | [] => []
  | (msgid, msgstr) :: rest =>
    (let ms := findallLinks msgid
     if ms ≠ [] then
       let ts := findallLinks msgstr
       if ts ≠ [] then [(msgid, msgstr, ms, ts)] else []
     else []) ++ discoverQueued rest

/-- The inner loop with `break` over the catalog of definition pairs, msgid
side: the first pair whose msgid label equals the usage label. -/
def findPairByMsgidLabel (lab : String) : List RefPair → Option RefPair
  | [] => none
  | p :: ps => if p.1.1 = lab then some p else findPairByMsgidLabel lab ps

/-- The inner loop with `break`, msgstr side. -/
def findPairByMsgstrLabel (lab : String) : List RefPair → Option RefPair
  | [] => none
  | p :: ps => if p.2.1 = lab then some p else findPairByMsgstrLabel lab ps

/-- The literal reference text `[displayText][label]` that gets replaced. -/
def usageReplacer (g : String × String) : String :=
  "[" ++ g.1 ++ "][" ++ g.2 ++ "]"

/-- The expanded link `[displayText](target)` substituted on the msgid side. -/
def usageReplacementMsgid (g : String × String) (p : RefPair) : String :=
  "[" ++ g.1 ++ "](" ++ p.1.2.1 ++ ")"

/-- The expanded link substituted on the msgstr side. -/
def usageReplacementMsgstr (g : String × String) (p : RefPair) : String :=
  "[" ++ g.1 ++ "](" ++ p.2.2.1 ++ ")"

/-- One iteration of the msgid rewriting loop: look up the first matching
definition pair for the usage's label; on a hit, `str.replace` on the current
string (`orig` while the accumulator is still `None`). -/
def applyMsgidUsage (cur : Option String) (orig : String) (g : String × String)
    (pairs : List RefPair) : Option String :=
  match findPairByMsgidLabel g.2 pairs with
  | none => cur
  | some p => some (pyReplace (cur.getD orig) (usageReplacer g) (usageReplacementMsgid g p))

/-- One iteration of the msgstr rewriting loop. -/
def applyMsgstrUsage (cur : Option String) (orig : String) (g : String × String)
    (pairs : List RefPair) : Option String :=
  match findPairByMsgstrLabel g.2 pairs with
  | none => cur
  | some p => some (pyReplace (cur.getD orig) (usageReplacer g) (usageReplacementMsgstr g p))

/-- The msgid rewriting loop of `solve_link_reference_targets` for one queued
entry: `new_msgid` starts as `None` and each usage with a matching definition
pair replaces its reference text. -/
def rewriteMsgid (orig : String) (gs : List (String × String))
    (pairs : List RefPair) : Option String :=
  gs.foldl (fun cur g => applyMsgidUsage cur orig g pairs) none

/-- The msgstr rewriting loop for one queued entry. -/
def rewriteMsgstr (orig : String) (gs : List (String × String))
    (pairs : List RefPair) : Option String :=
  gs.foldl (fun cur g => applyMsgstrUsage cur orig g pairs) none

/-- Python dict assignment `d[k] = v`: overwrite in place when the key is
present, else append. -/
def dictInsert {α β : Type} [DecidableEq α] (l : List (α × β)) (k : α) (v : β) :
    List (α × β) :=
  if l.any (fun p => p.1 = k) then
    l.map (fun p => if p.1 = k then (k, v) else p)
  else l ++ [(k, v)]

/-- `solve_link_reference_targets(translations)` from `mdpo/md.py`.  The
result keys and values are `Option String` because the accumulators
`new_msgid`/`new_msgstr` are still Python `None` when no usage matched any
definition pair, and the code stores them unconditionally
(`solutions[new_msgid] = new_msgstr`). -/
def solve_link_reference_targets (translations : List (String × String)) :
    List (Option String × Option String) :=
  let pairs := discoverPairs translations
  let queued := discoverQueued translations
  queued.foldl
    (fun sols q =>
      dictInsert sols (rewriteMsgid q.1 q.2.2.1 pairs) (rewriteMsgstr q.2.1 q.2.2.2 pairs))
    []

example :
    solve_link_reference_targets
      [("[ref]: /page \"Title\"\n\nSee [text][ref].",
        "[ref]: /pagina \"Titulo\"\n\nVer [texto][ref].")] =
    [(some "[ref]: /page \"Title\"\n\nSee [text](/page).",
      some "[ref]: /pagina \"Titulo\"\n\nVer [texto](/pagina).")] := by decide

/-! ## Spec-wording variants used for refinement comparisons -/

/-- Follows the spec's words, for comparison with `applyMsgidUsage`:
"replace the first literal occurrence of `[displayText][label]`" — the same
lookup, but replacing only the first occurrence in the evolving string. -/
def applyMsgidUsageFirst (cur : Option String) (orig : String) (g : String × String)
    (pairs : List RefPair) : Option String :=
  match findPairByMsgidLabel g.2 pairs with
  | none => cur
  | some p =>
    some (pyReplaceFirst (cur.getD orig) (usageReplacer g) (usageReplacementMsgid g p))

/-- The msgid rewriting loop under the spec's replace-first wording. -/
def rewriteMsgidFirst (orig : String) (gs : List (String × String))
    (pairs : List RefPair) : Option String :=
  gs.foldl (fun cur g => applyMsgidUsageFirst cur orig g pairs) none

/-- One cumulative replace-all rewriting step on a plain string (the effect of
Python `str.replace` used by the code), msgid side. -/
def msgidStepAll (pairs : List RefPair) (s : String) (g : String × String) : String :=
  match findPairByMsgidLabel g.2 pairs with
  | none => s
  | some p => pyReplace s (usageReplacer g) (usageReplacementMsgid g p)

/-- One cumulative replace-all rewriting step, msgstr side. -/
def msgstrStepAll (pairs : List RefPair) (s : String) (g : String × String) : String :=
  match findPairByMsgstrLabel g.2 pairs with
  | none => s
  | some p => pyReplace s (usageReplacer g) (usageReplacementMsgstr g p)

/-! ## Theorems about the reference resolver -/

theorem foldl_applyMsgidUsage_some (orig : String) (pairs : List RefPair)
    (gs : List (String × String)) (s : String) :
    gs.foldl (fun cur g => applyMsgidUsage cur orig g pairs) (some s) =
      some (gs.foldl (msgidStepAll pairs) s) := by
  induction gs generalizing s with
  | nil => rfl
  | cons g gs ih =>
    simp only [List.foldl_cons]
    have hstep : applyMsgidUsage (some s) orig g pairs = some (msgidStepAll pairs s g) := by
      unfold applyMsgidUsage msgidStepAll
      cases findPairByMsgidLabel g.2 pairs <;> rfl
    rw [hstep, ih]

theorem foldl_applyMsgstrUsage_some (orig : String) (pairs : List RefPair)
    (gs : List (String × String)) (s : String) :
    gs.foldl (fun cur g => applyMsgstrUsage cur orig g pairs) (some s) =
      some (gs.foldl (msgstrStepAll pairs) s) := by
  induction gs generalizing s with
  | nil => rfl
  | cons g gs ih =>
    simp only [List.foldl_cons]
    have hstep : applyMsgstrUsage (some s) orig g pairs = some (msgstrStepAll pairs s g) := by
      unfold applyMsgstrUsage msgstrStepAll
      cases findPairByMsgstrLabel g.2 pairs <;> rfl
    rw [hstep, ih]

/-- **C2 (amended).** In `solve_link_reference_targets`, rewriting a queued
entry's source side processes its source usages in the order they were found,
and for each usage with a matching definition pair replaces **every** literal
occurrence of `[displayText][label]` (Python `str.replace`) in the evolving
new-source string with `[displayText](definitionTarget)`, each replacement
operating on the already-partially-rewritten string (the string is the
original text until the first matching usage); the symmetric statement holds
for target-side usages on the target string. -/
theorem rewriteMsgid_replaces_all_occurrences (orig : String)
    (gs : List (String × String)) (pairs : List RefPair) :
    (rewriteMsgid orig gs pairs =
      if gs.any (fun g => (findPairByMsgidLabel g.2 pairs).isSome) then
        some (gs.foldl (msgidStepAll pairs) orig)
      else none) ∧
    (rewriteMsgstr orig gs pairs =
      if gs.any (fun g => (findPairByMsgstrLabel g.2 pairs).isSome) then
        some (gs.foldl (msgstrStepAll pairs) orig)
      else none) := by
  constructor
  · induction gs with
    | nil => rfl
    | cons g gs ih =>
      unfold rewriteMsgid at ih ⊢
      simp only [List.foldl_cons, List.any_cons]
      cases h : findPairByMsgidLabel g.2 pairs with
      | none =>
        have h0 : applyMsgidUsage none orig g pairs = none := by
          unfold applyMsgidUsage
          rw [h]
        have h1 : msgidStepAll pairs orig g = orig := by
          unfold msgidStepAll
          rw [h]
        rw [h0, h1, ih]
        simp only [Option.isSome_none, Bool.false_or]
      | some p =>
        have h0 : applyMsgidUsage none orig g pairs = some (msgidStepAll pairs orig g) := by
          unfold applyMsgidUsage msgidStepAll
          rw [h]
          rfl
        rw [h0, foldl_applyMsgidUsage_some]
        simp
  · induction gs with
    | nil => rfl
    | cons g gs ih =>
      unfold rewriteMsgstr at ih ⊢
      simp only [List.foldl_cons, List.any_cons]
      cases h : findPairByMsgstrLabel g.2 pairs with
      | none =>
        have h0 : applyMsgstrUsage none orig g pairs = none := by
          unfold applyMsgstrUsage
          rw [h]
        have h1 : msgstrStepAll pairs orig g = orig := by
          unfold msgstrStepAll
          rw [h]
        rw [h0, h1, ih]
        simp only [Option.isSome_none, Bool.false_or]
      | some p =>
        have h0 : applyMsgstrUsage none orig g pairs = some (msgstrStepAll pairs orig g) := by
          unfold applyMsgstrUsage msgstrStepAll
          rw [h]
          rfl
        rw [h0, foldl_applyMsgstrUsage_some]
        simp

/-- **C2 (counterexample).** The code's rewriting is not replace-first: with
the definition pair `[r] → [b][r]` (a target that itself contains reference
syntax), processing the two usages of `[a][r] [b][r]` replaces, at the second
usage, **both** occurrences of `[b][r]` present in the evolving string,
whereas the claim's replace-first reading leaves the second untouched. -/
theorem rewriteMsgid_ne_replace_first :
    rewriteMsgid "[a][r] [b][r]" [("a", "r"), ("b", "r")]
        [(("r", "[b][r]", none), ("r", "/t", none))] =
      some "[a]([b]([b][r])) [b]([b][r])" ∧
    rewriteMsgidFirst "[a][r] [b][r]" [("a", "r"), ("b", "r")]
        [(("r", "[b][r]", none), ("r", "/t", none))] =
      some "[a]([b]([b][r])) [b][r]" ∧
    rewriteMsgid "[a][r] [b][r]" [("a", "r"), ("b", "r")]
        [(("r", "[b][r]", none), ("r", "/t", none))] ≠
      rewriteMsgidFirst "[a][r] [b][r]" [("a", "r"), ("b", "r")]
        [(("r", "[b][r]", none), ("r", "/t", none))] := by
  refine ⟨by decide, by decide, by decide⟩

/-- **C1.** A queued entry (usages on both sides) none of whose usages
matches any retained definition pair does **not** yield a result entry equal
to the original texts: the accumulators are still Python `None` and the code
stores `solutions[None] = None`. -/
theorem solve_unmatched_queued_entry_stores_none :
    solve_link_reference_targets [("See [a][x].", "Ver [b][y].")] =
      [(none, none)] := by decide

theorem findPairByMsgidLabel_first_match (lab : String) (ps qs : List RefPair)
    (p : RefPair) (h : ∀ q ∈ ps, q.1.1 ≠ lab) (hp : p.1.1 = lab) :
    findPairByMsgidLabel lab (ps ++ p :: qs) = some p := by
  induction ps with
  | nil => simp [findPairByMsgidLabel, hp]
  | cons q ps ih =>
    have hq : q.1.1 ≠ lab := h q (List.mem_cons_self q ps)
    have hps : ∀ r ∈ ps, r.1.1 ≠ lab := fun r hr => h r (List.mem_cons_of_mem q hr)
    simp only [List.cons_append, findPairByMsgidLabel, if_neg hq]
    exact ih hps

theorem findPairByMsgstrLabel_first_match (lab : String) (ps qs : List RefPair)
    (p : RefPair) (h : ∀ q ∈ ps, q.2.1 ≠ lab) (hp : p.2.1 = lab) :
    findPairByMsgstrLabel lab (ps ++ p :: qs) = some p := by
  induction ps with
  | nil => simp [findPairByMsgstrLabel, hp]
  | cons q ps ih =>
    have hq : q.2.1 ≠ lab := h q (List.mem_cons_self q ps)
    have hps : ∀ r ∈ ps, r.2.1 ≠ lab := fun r hr => h r (List.mem_cons_of_mem q hr)
    simp only [List.cons_append, findPairByMsgstrLabel, if_neg hq]
    exact ih hps

/-- **C10.** When several retained definition pairs carry the same source
label, a source-side usage with that label is resolved against the
earliest-discovered matching pair — the pairs after the first match are
ignored (the inner loop breaks after its first hit); the symmetric statement
holds for target-side labels. -/
theorem usage_resolved_against_earliest_pair (lab : String) (ps qs : List RefPair)
    (p : RefPair) :
    ((∀ q ∈ ps, q.1.1 ≠ lab) → p.1.1 = lab →
      findPairByMsgidLabel lab (ps ++ p :: qs) = some p ∧
      ∀ cur orig d, applyMsgidUsage cur orig (d, lab) (ps ++ p :: qs) =
        some (pyReplace (cur.getD orig) (usageReplacer (d, lab))
          (usageReplacementMsgid (d, lab) p))) ∧
    ((∀ q ∈ ps, q.2.1 ≠ lab) → p.2.1 = lab →
      findPairByMsgstrLabel lab (ps ++ p :: qs) = some p ∧
      ∀ cur orig d, applyMsgstrUsage cur orig (d, lab) (ps ++ p :: qs) =
        some (pyReplace (cur.getD orig) (usageReplacer (d, lab))
          (usageReplacementMsgstr (d, lab) p))) := by
  constructor
  · intro h hp
    have hfind := findPairByMsgidLabel_first_match lab ps qs p h hp
    refine ⟨hfind, fun cur orig d => ?_⟩
    unfold applyMsgidUsage
    rw [hfind]
  · intro h hp
    have hfind := findPairByMsgstrLabel_first_match lab ps qs p h hp
    refine ⟨hfind, fun cur orig d => ?_⟩
    unfold applyMsgstrUsage
    rw [hfind]

/-- Witness for C10 at a concrete catalog: two pairs share the source label
`r`; the earliest (`/first`) wins. -/
theorem usage_resolved_against_earliest_pair_witness :
    findPairByMsgidLabel "r"
        [(("r", "/first", none), ("r", "/fone", none)),
         (("r", "/second", none), ("r", "/stwo", none))] =
      some (("r", "/first", none), ("r", "/fone", none)) :=
  ((usage_resolved_against_earliest_pair "r" []
      [(("r", "/second", none), ("r", "/stwo", none))]
      (("r", "/first", none), ("r", "/fone", none))).1
    (by simp) rfl).1

/-- **C4 (counterexample).** An entry whose source and target texts both
parse as link-reference definitions (here with one leading space, allowed by
the pattern's `^\s{0,3}`) is nevertheless **not** retained: the code first
requires `msgid[0] == '['`. -/
theorem indented_definition_not_retained :
    linkReferenceMatch " [r]: /a" = some ("r", "/a", none) ∧
    linkReferenceMatch " [r]: /b" = some ("r", "/b", none) ∧
    discoverPairs [(" [r]: /a", " [r]: /b")] = [] := by
  refine ⟨by decide, by decide, by decide⟩

/-- **C4 (amended).** An entry is retained as a definition pair when its
source text's first character is `[` (the code's fast-path filter) and both
sides match the definition pattern; the up-to-3-leading-spaces allowance is
effective only on the target side. -/
theorem definition_pair_retained (translations : List (String × String))
    (msgid msgstr : String) (g1 g2 : RefGroups)
    (hmem : (msgid, msgstr) ∈ translations)
    (hhead : strHeadIs '[' msgid = true)
    (h1 : linkReferenceMatch msgid = some g1)
    (h2 : linkReferenceMatch msgstr = some g2) :
    (g1, g2) ∈ discoverPairs translations := by
  induction translations with
  | nil => cases hmem
  | cons e rest ih =>
    unfold discoverPairs
    rcases List.mem_cons.mp hmem with he | hrest
    · obtain ⟨h1', h2'⟩ : e.1 = msgid ∧ e.2 = msgstr := by
        cases e
        cases he
        exact ⟨rfl, rfl⟩
      rw [h1', h2', hhead, h1, h2]
      simp
    · exact List.mem_append_right _ (ih hrest)

/-- Witness for C4 (amended): a column-0 definition entry, with an indented
target side, is retained. -/
theorem definition_pair_retained_witness :
    ((("r", "/a", none) : RefGroups), (("r", "/b", none) : RefGroups)) ∈
      discoverPairs [("other", "entry"), ("[r]: /a", "  [r]: /b")] :=
  definition_pair_retained _ "[r]: /a" "  [r]: /b" _ _
    (by decide) (by decide) (by decide) (by decide)

/-! ## The `MarkdownSpanWrapper` class

The wrapper consumes md4c parser callbacks.  The parser itself is an external
collaborator (out of scope per the spec); an explicit event stream stands for
its document-order traversal, and `wrap` is split into the event fold plus the
final flush the method performs after parsing.
-/

/-- Modelled from the spec: `po_escaped_string` (module `mdpo.po`, not under
`src/`) computes "an escaped form used when literal text collides with a
delimiter", i.e. the delimiter protected by a leading backslash so that it is
not re-read as markup. -/
def po_escaped_string (s : String) : String :=
  "\\" ++ s

/-- Modelled from the spec: `min_not_max_chars_in_a_row` (module `mdpo.text`,
not under `src/`) picks "the minimal run of backtick characters not already
present consecutively in `textRun`": the smallest positive count that is not
the length of any maximal run of the character in the text, so that a fence of
that many characters cannot be confused with literal runs in the content.
`runLengthsAux` collects the maximal-run lengths. -/
def runLengthsAux (c : Char) (cur : Nat) : List Char → List Nat
  | [] => if cur ≠ 0 then [cur] else []
  | x :: xs =>
    if x = c then runLengthsAux c (cur + 1) xs
    else if cur ≠ 0 then cur :: runLengthsAux c 0 xs
    else runLengthsAux c 0 xs

/-- Smallest value `≥ n` absent from the list (fuel-driven; with fuel
`l.length + 1` some value in range is always absent). -/
def smallestAbsentFrom : Nat → Nat → List Nat → Nat
  | 0, n, _ => n
  | fuel + 1, n, l => if l.contains n then smallestAbsentFrom fuel (n + 1) l else n

/-- Modelled from the spec: see `runLengthsAux`. -/
def min_not_max_chars_in_a_row (c : Char) (s : String) : Nat :=
  let runs := runLengthsAux c 0 s.data
  smallestAbsentFrom (runs.length + 1) 1 runs

example : min_not_max_chars_in_a_row '`' "no ticks" = 1 := by decide
example : min_not_max_chars_in_a_row '`' "a ` b ``` c" = 2 := by decide

/-- The md4c span kinds handled by the wrapper (`md4c.SpanType`). -/
inductive SpanKind : Type
  | CODE | A | STRONG | EM | WIKILINK | IMG
deriving DecidableEq

/-- The `details` attribute dictionary passed by md4c to the span callbacks:
`href`/`title` for links, `src`/`title` for images, `target` for wikilinks.
`none` stands for a missing or empty attribute list. -/
structure SpanDetails where
  href : Option String := none
  title : Option String := none
  target : Option String := none
  src : Option String := none

/-- The constructor arguments and delimiter configuration of
`MarkdownSpanWrapper.__init__`.  `code_start_string`/`code_end_string` are
stored already truncated to their first character, exactly as `__init__`
does with `kwargs.get('code_start_string', '`')[0]`. -/
structure WrapperConfig where
  width : Nat
  first_line_width : Nat
  indent : String
  first_line_indent : String
  bold_start_string : String
  bold_end_string : String
  italic_start_string : String
  italic_end_string : String
  code_start_string : String
  code_end_string : String
  link_start_string : String
  link_end_string : String
  wikilink_start_string : String
  wikilink_end_string : String
  italic_start_string_escaped : String
  italic_end_string_escaped : String
  code_start_string_escaped : String
  code_end_string_escaped : String

/-- The keyword arguments accepted by `__init__`, with their defaults. -/
structure WrapperKwargs where
  bold_start_string : String := "**"
  bold_end_string : String := "**"
  italic_start_string : String := "*"
  italic_end_string : String := "*"
  code_start_string : String := "`"
  code_end_string : String := "`"
  link_start_string : String := "["
  link_end_string : String := "]"
  wikilink_start_string : String := "[["
  wikilink_end_string : String := "]]"
  italic_start_string_escaped : Option String := none
  italic_end_string_escaped : Option String := none
  code_start_string_escaped : Option String := none
  code_end_string_escaped : Option String := none

/-- `MarkdownSpanWrapper.__init__`: truncates the code delimiters to their
first character and derives the escaped delimiter forms when not overridden. -/
def WrapperConfig.ofKwargs (width first_line_width : Nat)
    (indent first_line_indent : String) (kw : WrapperKwargs) : WrapperConfig :=
  let code_start := pyFirstCharString kw.code_start_string
  let code_end := pyFirstCharString kw.code_end_string
  { width := width
    first_line_width := first_line_width
    indent := indent
    first_line_indent := first_line_indent
    bold_start_string := kw.bold_start_string
    bold_end_string := kw.bold_end_string
    italic_start_string := kw.italic_start_string
    italic_end_string := kw.italic_end_string
    code_start_string := code_start
    code_end_string := code_end
    link_start_string := kw.link_start_string
    link_end_string := kw.link_end_string
    wikilink_start_string := kw.wikilink_start_string
    wikilink_end_string := kw.wikilink_end_string
    italic_start_string_escaped :=
      kw.italic_start_string_escaped.getD (po_escaped_string kw.italic_start_string)
    italic_end_string_escaped :=
      kw.italic_end_string_escaped.getD (po_escaped_string kw.italic_end_string)
    code_start_string_escaped :=
      kw.code_start_string_escaped.getD (po_escaped_string code_start)
    code_end_string_escaped :=
      kw.code_end_string_escaped.getD (po_escaped_string code_end) }

/-- The default configuration with the given widths and indents. -/
def defaultConfig (width first_line_width : Nat)
    (indent first_line_indent : String) : WrapperConfig :=
  WrapperConfig.ofKwargs width first_line_width indent first_line_indent {}

/-- The mutable state of a `MarkdownSpanWrapper` instance.  `output` holds the
already-completed lines, in order and with their indentation applied; in the
Python object, `self.output` is their concatenation with one `'\n'` after
each line (`self.output += f'{indent}{self._current_line}\n'` is the only way
the attribute grows while wrapping). -/
structure WrapperState where
  output : List String := []
  current_line : String := ""
  aspan_href : Option String := none
  aspan_title : Option String := none
  inside_codespan : Bool := false
  wikilink_target : Option String := none

/-- A fresh wrapper (the state set up by `__init__`). -/
def initState : WrapperState := {}

/-- `_get_currently_applied_width` (Python tests `if self.output`, string
truthiness: any completed line makes it non-empty). -/
def appliedWidth (cfg : WrapperConfig) (st : WrapperState) : Nat :=
  if st.output ≠ [] then cfg.width else cfg.first_line_width

/-- `_get_currently_applied_indent`. -/
def appliedIndent (cfg : WrapperConfig) (st : WrapperState) : String :=
  if st.output ≠ [] then cfg.indent else cfg.first_line_indent

/-- The backtick-fence length computed in the code-span branch of `text`:
`min_not_max_chars_in_a_row(self.code_start_string[0], text) - 1`. -/
def codespanFence (cfg : WrapperConfig) (t : String) : Nat :=
  min_not_max_chars_in_a_row (strHead cfg.code_start_string) t - 1

/-- The delimiter-escaping prologue of the plain-text branch of `text`. -/
def escapeDelimiterRun (cfg : WrapperConfig) (t : String) : String :=
  if t = cfg.italic_start_string then cfg.italic_start_string_escaped
  else if t = cfg.code_start_string then cfg.code_start_string_escaped
  else if t = cfg.code_end_string then cfg.code_end_string_escaped
  else if t = cfg.italic_end_string then cfg.italic_end_string_escaped
  else t

/-- The word loop of the plain-text branch of `text`.  `w` is the running
`width` local variable: Python turns it into a float via `width *= .95`
inside links, so it is carried as a rational (`0.95` is read as `19/20`; the
IEEE double actually stored differs from it by less than `2 ^ (-52)`, and no
comparison in this development falls in that gap).  `first` is `i == 0`. -/
def wrapTextLoop (cfg : WrapperConfig) : ℚ → Bool → WrapperState → List String → WrapperState
  | _, _, st, [] => st
  | w, first, st, word :: rest =>
    if ((st.current_line.length + word.length + 1 : Nat) : ℚ) > w then
      if first = false ∨ (st.current_line ≠ "" ∧ strLast st.current_line = some ' ') then
        let st := { st with
          output := st.output ++ [appliedIndent cfg st ++ st.current_line],
          current_line := "" }
        let w : ℚ := (appliedWidth cfg st : ℚ)
        let w := if optTruthy st.aspan_href then w * (19 / 20) else w
        wrapTextLoop cfg w false { st with current_line := st.current_line ++ word } rest
      else
        wrapTextLoop cfg w false { st with current_line := st.current_line ++ word } rest
    else
      let st :=
        if first = false then { st with current_line := st.current_line ++ " " } else st
      wrapTextLoop cfg w false { st with current_line := st.current_line ++ word } rest

namespace MarkdownSpanWrapper

/-- `MarkdownSpanWrapper.enter_span`. -/
def enter_span (cfg : WrapperConfig) (st : WrapperState) (span : SpanKind)
    (details : SpanDetails) : WrapperState :=
  match span with
  | .CODE =>
    { st with inside_codespan := true,
              current_line := st.current_line ++ cfg.code_start_string }
  | .A =>
    { st with current_line := st.current_line ++ cfg.link_start_string,
              aspan_href := some (details.href.getD ""),
              aspan_title := details.title }
  | .STRONG => { st with current_line := st.current_line ++ cfg.bold_start_string }
  | .EM => { st with current_line := st.current_line ++ cfg.italic_start_string }
  | .WIKILINK =>
    { st with current_line := st.current_line ++ cfg.wikilink_start_string,
              wikilink_target := some (details.target.getD "") }
  | .IMG => { st with current_line := st.current_line ++ "![" }

/-- `MarkdownSpanWrapper.leave_span`.  For links, Python reads
`self._current_line[-1]` (which would raise on an empty buffer; the buffer
always holds at least the link opener there). -/
def leave_span (cfg : WrapperConfig) (st : WrapperState) (span : SpanKind)
    (details : SpanDetails) : WrapperState :=
  match span with
  | .CODE =>
    { st with inside_codespan := false,
              current_line := st.current_line ++ cfg.code_end_string }
  | .A =>
    let st :=
      if strLast st.current_line ≠ some '>' then
        let line := st.current_line ++ "](" ++ st.aspan_href.getD ""
        let line :=
          if optTruthy st.aspan_title then
            line ++ " \"" ++ escape_links_titles (st.aspan_title.getD "") ++ "\""
          else line
        { st with current_line := line ++ ")" }
      else st
    { st with aspan_href := none, aspan_title := none }
  | .STRONG => { st with current_line := st.current_line ++ cfg.bold_end_string }
  | .EM => { st with current_line := st.current_line ++ cfg.italic_end_string }
  | .WIKILINK =>
    { st with current_line := st.current_line ++ cfg.wikilink_end_string,
              wikilink_target := none }
  | .IMG =>
    let src := details.src.getD ""
    let line := st.current_line ++ "](" ++ src
    let line :=
      if optTruthy details.title then
        line ++ " \"" ++ escape_links_titles (details.title.getD "") ++ "\""
      else line
    { st with current_line := line ++ ")" }

/-- `MarkdownSpanWrapper.text`: the four mutually exclusive branches
(code span, wikilink, autolink collapse, plain word-wrapping). -/
def text (cfg : WrapperConfig) (st : WrapperState) (t : String) : WrapperState :=
  if st.inside_codespan then
    let width := appliedWidth cfg st
    let indent := appliedIndent cfg st
    let st :=
      if st.current_line.length + t.length + 1 > width then
        { st with
          output := st.output ++ [indent ++ pyRstrip [' '] (pyRstrip ['`'] st.current_line)],
          current_line := "`" }
      else st
    let n := codespanFence cfg t
    let st :=
      if n ≠ 0 then
        { st with current_line := st.current_line ++ String.mk (List.replicate n '`') }
      else st
    { st with current_line := st.current_line ++ t ++ String.mk (List.replicate n '`') }
  else if optTruthy st.wikilink_target then
    let target := st.wikilink_target.getD ""
    if t ≠ target then
      { st with current_line := st.current_line ++ target ++ "|" ++ t }
    else
      { st with current_line := st.current_line ++ t }
  else
    if optTruthy st.aspan_href ∧ st.aspan_href = some t ∧ ¬ optTruthy st.aspan_title then
      { st with current_line := pyRstrip [' ', '['] st.current_line ++ " <" ++ t ++ ">" }
    else
      let t := escapeDelimiterRun cfg t
      let splits := pySplitChar ' ' t
      let widthNat := appliedWidth cfg st
      if optTruthy st.aspan_href then
        let st :=
          if st.current_line.length + (splits.headD "").length + 1 > widthNat then
            { st with
              output := st.output ++
                [appliedIndent cfg st ++ pyRstrip [' '] (pyDropLast st.current_line)],
              current_line := "[" }
          else st
        wrapTextLoop cfg ((widthNat : ℚ) * (19 / 20)) true st splits
      else
        wrapTextLoop cfg (widthNat : ℚ) true st splits

end MarkdownSpanWrapper

/-- One md4c callback invocation, in document order. -/
inductive Md4cEvent : Type
  | enterBlockEv
  | leaveBlockEv
  | enterSpanEv (span : SpanKind) (details : SpanDetails)
  | leaveSpanEv (span : SpanKind) (details : SpanDetails)
  | textEv (t : String)

/-- Dispatch of one parser event to the wrapper callbacks (`enter_block` and
`leave_block` are no-ops). -/
def processEvent (cfg : WrapperConfig) (st : WrapperState) : Md4cEvent → WrapperState
  | .enterBlockEv => st
  | .leaveBlockEv => st
  | .enterSpanEv span details => MarkdownSpanWrapper.enter_span cfg st span details
  | .leaveSpanEv span details => MarkdownSpanWrapper.leave_span cfg st span details
  | .textEv t => MarkdownSpanWrapper.text cfg st t

/-- The state after `parser.parse(...)` has driven the callbacks over the
event stream of a document (modelled from the spec's parser contract: the
external md4c parser invokes the five callbacks in document order). -/
def runEvents (cfg : WrapperConfig) (events : List Md4cEvent) : WrapperState :=
  events.foldl (processEvent cfg) initState

/-- The lines present in a wrapper state once `wrap` has performed its final
flush (`if self._current_line: self.output += indent + line`). -/
def finalLinesOf (cfg : WrapperConfig) (st : WrapperState) : List String :=
  st.output ++
    (if st.current_line ≠ "" then [appliedIndent cfg st ++ st.current_line] else [])

/-- The lines of the wrapped output for an event stream. -/
def wrapLines (cfg : WrapperConfig) (events : List Md4cEvent) : List String :=
  finalLinesOf cfg (runEvents cfg events)

/-- The string returned by `MarkdownSpanWrapper.wrap`: the completed lines
each followed by a newline, the final flush without one, and a trailing
newline exactly when `first_line_width == width`. -/
def wrapOutput (cfg : WrapperConfig) (events : List Md4cEvent) : String :=
  let st := runEvents cfg events
  let out := String.join (st.output.map (fun l => l ++ "\n"))
  let out :=
    if st.current_line ≠ "" then out ++ appliedIndent cfg st ++ st.current_line
    else out
  if cfg.first_line_width = cfg.width then out ++ "\n" else out

/-- The md4c event stream for the one-paragraph document
`[http://x.com](http://x.com)`: a link span containing its display text. -/
def autolinkEvents : List Md4cEvent :=
  [.enterBlockEv,
   .enterSpanEv .A { href := some "http://x.com" },
   .textEv "http://x.com",
   .leaveSpanEv .A {},
   .leaveBlockEv]

/-- **C3 (counterexample).** With the default configuration (no indent),
wrapping `[http://x.com](http://x.com)` does not produce the line
`<http://x.com>`: the autolink-collapse branch builds
`f"{line.rstrip(' [')} <{text}>"`, whose hard-coded space separator survives
at the start of the line. -/
theorem autolink_collapse_not_flush_left :
    wrapOutput (defaultConfig 80 80 "" "") autolinkEvents ≠ "<http://x.com>\n" := by
  decide

/-- **C3 (amended).** Wrapping `[http://x.com](http://x.com)` with the
default configuration collapses the link to autolink form, but with one space
before the `<`: the output is exactly ` <http://x.com>` followed by the
trailing newline. -/
theorem autolink_collapse_output :
    wrapOutput (defaultConfig 80 80 "" "") autolinkEvents = " <http://x.com>\n" := by
  decide

/-- The configuration built from `code_start_string`/`code_end_string`
overrides (all other arguments left at their defaults). -/
def codeOverrideConfig (s e : String) : WrapperConfig :=
  WrapperConfig.ofKwargs 80 80 "" "" { code_start_string := s, code_end_string := e }

theorem pyFirstCharString_length {s : String} (h : s ≠ "") :
    (pyFirstCharString s).length = 1 := by
  unfold pyFirstCharString
  cases hd : s.data with
  | nil => exact absurd (show s = "" from congrArg String.mk hd) h
  | cons c cs => simp [String.length, hd]

theorem strHead_pyFirstCharString (s : String) :
    strHead (pyFirstCharString s) = strHead s := by
  unfold strHead pyFirstCharString
  cases s.data <;> rfl

/-- **C9.** For every non-empty `code_start_string`/`code_end_string`
override, the wrapper keeps only the first character: the stored delimiters
are the one-character truncations, entering and leaving a code span each
append exactly that single character to the line buffer, and the
backtick-fence computation of the code-span branch counts runs of that first
character of the override. -/
theorem code_delimiters_use_first_char_only (s e : String) (hs : s ≠ "") (he : e ≠ "") :
    ((codeOverrideConfig s e).code_start_string = pyFirstCharString s ∧
      (codeOverrideConfig s e).code_end_string = pyFirstCharString e ∧
      (codeOverrideConfig s e).code_start_string.length = 1 ∧
      (codeOverrideConfig s e).code_end_string.length = 1) ∧
    (∀ st d,
      (MarkdownSpanWrapper.enter_span (codeOverrideConfig s e) st .CODE d).current_line =
        st.current_line ++ pyFirstCharString s ∧
      (MarkdownSpanWrapper.enter_span (codeOverrideConfig s e) st .CODE d).current_line.length =
        st.current_line.length + 1) ∧
    (∀ st d,
      (MarkdownSpanWrapper.leave_span (codeOverrideConfig s e) st .CODE d).current_line =
        st.current_line ++ pyFirstCharString e ∧
      (MarkdownSpanWrapper.leave_span (codeOverrideConfig s e) st .CODE d).current_line.length =
        st.current_line.length + 1) ∧
    (∀ t, codespanFence (codeOverrideConfig s e) t =
      min_not_max_chars_in_a_row (strHead s) t - 1) := by
  have hcs : (codeOverrideConfig s e).code_start_string = pyFirstCharString s := rfl
  have hce : (codeOverrideConfig s e).code_end_string = pyFirstCharString e := rfl
  have hlens : (pyFirstCharString s).length = 1 := pyFirstCharString_length hs
  have hlene : (pyFirstCharString e).length = 1 := pyFirstCharString_length he
  refine ⟨⟨hcs, hce, hlens, hlene⟩, fun st d => ⟨rfl, ?_⟩, fun st d => ⟨rfl, ?_⟩, fun t => ?_⟩
  · show (st.current_line ++ pyFirstCharString s).length = st.current_line.length + 1
    rw [String.length_append, hlens]
  · show (st.current_line ++ pyFirstCharString e).length = st.current_line.length + 1
    rw [String.length_append, hlene]
  · show min_not_max_chars_in_a_row (strHead (pyFirstCharString s)) t - 1 = _
    rw [strHead_pyFirstCharString]

/-- Witness for C9 at the override `"```"`: the stored delimiter is the
one-character string. -/
theorem code_delimiters_use_first_char_only_witness :
    (codeOverrideConfig "```" "~~").code_start_string = pyFirstCharString "```" :=
  (code_delimiters_use_first_char_only "```" "~~" (by decide) (by decide)).1.1

/-! ## Plain-text wrapping: preservation of the word sequence -/

/-- The default configuration with empty indents and the given widths (the
configuration quantified over by the plain-text wrapping properties). -/
def plainCfg (w flw : Nat) : WrapperConfig :=
  defaultConfig w flw "" ""

/-- The event stream of a single block whose inline content is one text run
(modelled from the spec's parser contract). -/
def plainBlockEvents (t : String) : List Md4cEvent :=
  [.enterBlockEv, .textEv t, .leaveBlockEv]

/-- The words of one output line: split on spaces, dropping empty pieces. -/
def wordsOfStr (s : String) : List String :=
  (pySplitChar ' ' s).filter (fun w => w ≠ "")

/-- The words of a list of output lines, in order. -/
def wordsOfLines (ls : List String) : List String :=
  (ls.map wordsOfStr).flatten

theorem splitOnChar_pieces_no_sep (sep : Char) (l : List Char) :
    ∀ p ∈ splitOnChar sep l, sep ∉ p := by
  induction l with
  | nil =>
    intro p hp
    simp only [splitOnChar, List.mem_singleton] at hp
    simp [hp]
  | cons c cs ih =>
    intro p hp
    unfold splitOnChar at hp
    by_cases h : c = sep
    · rw [if_pos h] at hp
      rcases List.mem_cons.mp hp with h0 | h0
      · simp [h0]
      · exact ih p h0
    · rw [if_neg h] at hp
      cases hs : splitOnChar sep cs with
      | nil => exact absurd hs (splitOnChar_ne_nil sep cs)
      | cons q qs =>
        rw [hs, List.modifyHead] at hp
        rcases List.mem_cons.mp hp with h0 | h0
        · subst h0
          intro hmem
          rcases List.mem_cons.mp hmem with h1 | h1
          · exact h h1.symm
          · exact ih q (hs ▸ List.mem_cons_self q qs) h1
        · exact ih p (hs ▸ List.mem_cons_of_mem q h0)

theorem pySplitChar_pieces_no_sep (sep : Char) (s : String) :
    ∀ p ∈ pySplitChar sep s, sep ∉ p.data := by
  intro p hp
  obtain ⟨l, hl, rfl⟩ := List.mem_map.mp hp
  exact splitOnChar_pieces_no_sep sep s.data l hl

theorem pyJoin_pySplit (sep : Char) (s : String) :
    pyJoinChar sep (pySplitChar sep s) = s := by
  unfold pyJoinChar pySplitChar
  rw [List.map_map]
  have hmap : (String.data ∘ String.mk) = fun l : List Char => l := rfl
  rw [hmap, List.map_id', joinWithChar_splitOnChar]

theorem wordsOfStr_empty : wordsOfStr "" = [] := by decide

theorem wordsOfStr_single {g : String} (hg : g ≠ "") (hsp : ' ' ∉ g.data) :
    wordsOfStr g = [g] := by
  unfold wordsOfStr pySplitChar
  rw [splitOnChar_of_not_mem hsp]
  simp [string_mk_data, hg]

theorem wordsOfStr_append_word (a g : String) (hg : g ≠ "") (hsp : ' ' ∉ g.data) :
    wordsOfStr (a ++ " " ++ g) = wordsOfStr a ++ [g] := by
  unfold wordsOfStr pySplitChar
  have hdata : (a ++ " " ++ g).data = a.data ++ ' ' :: g.data := by
    rw [string_data_append, string_data_append]
    simp
  rw [hdata, splitOnChar_append_sep, splitOnChar_of_not_mem hsp]
  simp [string_mk_data, hg]

theorem wordsOfLines_append (ls : List String) (l : String) :
    wordsOfLines (ls ++ [l]) = wordsOfLines ls ++ wordsOfStr l := by
  simp [wordsOfLines]

theorem appliedIndent_of_empty {cfg : WrapperConfig} (h1 : cfg.indent = "")
    (h2 : cfg.first_line_indent = "") (st : WrapperState) :
    appliedIndent cfg st = "" := by
  unfold appliedIndent
  split <;> assumption

theorem wordsOfLines_finalLinesOf {cfg : WrapperConfig} (h1 : cfg.indent = "")
    (h2 : cfg.first_line_indent = "") (st : WrapperState) :
    wordsOfLines (finalLinesOf cfg st) =
      wordsOfLines st.output ++ wordsOfStr st.current_line := by
  unfold finalLinesOf
  by_cases hc : st.current_line ≠ ""
  · rw [if_pos hc, wordsOfLines_append, appliedIndent_of_empty h1 h2,
      string_empty_append]
  · rw [if_neg hc]
    push_neg at hc
    rw [hc, wordsOfStr_empty]
    simp

theorem wrapTextLoop_first_cons (cfg : WrapperConfig) (q : ℚ) (st : WrapperState)
    (h : st.current_line = "") (g : String) (gs : List String) :
    wrapTextLoop cfg q true st (g :: gs) =
      wrapTextLoop cfg q false { st with current_line := st.current_line ++ g } gs := by
  have hcond : ¬ ((true : Bool) = false ∨ (st.current_line ≠ "" ∧ strLast st.current_line = some ' ')) := by
    simp [h]
  by_cases hov : ((st.current_line.length + g.length + 1 : Nat) : ℚ) > q
  · conv_lhs => unfold wrapTextLoop
    rw [if_pos hov, if_neg hcond]
  · conv_lhs => unfold wrapTextLoop
    rw [if_neg hov, if_neg (by simp : ¬ ((true : Bool) = false))]

theorem wrapTextLoop_words {cfg : WrapperConfig} (h1 : cfg.indent = "")
    (h2 : cfg.first_line_indent = "") (gs : List String) :
    ∀ (q : ℚ) (st : WrapperState),
      (∀ g ∈ gs, g ≠ "" ∧ ' ' ∉ g.data) →
      wordsOfLines (wrapTextLoop cfg q false st gs).output ++
        wordsOfStr (wrapTextLoop cfg q false st gs).current_line =
      wordsOfLines st.output ++ wordsOfStr st.current_line ++ gs := by
  induction gs with
  | nil =>
    intro q st h
    simp [wrapTextLoop]
  | cons g gs ih =>
    intro q st h
    obtain ⟨hg1, hg2⟩ := h g (List.mem_cons_self g gs)
    have hgs : ∀ x ∈ gs, x ≠ "" ∧ ' ' ∉ x.data :=
      fun x hx => h x (List.mem_cons_of_mem g hx)
    unfold wrapTextLoop
    by_cases hov : ((st.current_line.length + g.length + 1 : Nat) : ℚ) > q
    · rw [if_pos hov, if_pos (Or.inl rfl)]
      dsimp only
      rw [ih _ _ hgs]
      rw [appliedIndent_of_empty h1 h2, string_empty_append, string_empty_append,
        wordsOfLines_append, wordsOfStr_single hg1 hg2]
      simp [List.append_assoc]
    · rw [if_neg hov, if_pos rfl]
      dsimp only
      rw [ih _ _ hgs]
      rw [wordsOfStr_append_word _ _ hg1 hg2]
      simp [List.append_assoc]

/-- **C5.** For every plain-text run of two or more words separated by single
spaces (no markup spans active), with the default delimiters and empty
indents and any width configuration, wrapping preserves the word sequence:
the words of the output lines are exactly the words of the input, and
rejoining them with single spaces reproduces the original text — no word is
dropped or duplicated. -/
theorem plain_wrapping_preserves_words (w flw : Nat) (t : String)
    (hlen : 2 ≤ (pySplitChar ' ' t).length)
    (hp : ∀ p ∈ pySplitChar ' ' t, p ≠ "") :
    wordsOfLines (wrapLines (plainCfg w flw) (plainBlockEvents t)) =
      pySplitChar ' ' t ∧
    pyJoinChar ' ' (wordsOfLines (wrapLines (plainCfg w flw) (plainBlockEvents t))) = t := by
  have ht1 : t ≠ "*" := by
    intro he
    subst he
    exact absurd hlen (by decide)
  have ht2 : t ≠ "`" := by
    intro he
    subst he
    exact absurd hlen (by decide)
  have hesc : escapeDelimiterRun (plainCfg w flw) t = t := by
    unfold escapeDelimiterRun
    have e1 : (plainCfg w flw).italic_start_string = "*" := rfl
    have e2 : (plainCfg w flw).code_start_string = "`" := by
      show pyFirstCharString "`" = "`"
      decide
    have e3 : (plainCfg w flw).code_end_string = "`" := by
      show pyFirstCharString "`" = "`"
      decide
    have e4 : (plainCfg w flw).italic_end_string = "*" := rfl
    rw [e1, e2, e3, e4, if_neg ht1, if_neg ht2, if_neg ht2, if_neg ht1]
  have hrun : runEvents (plainCfg w flw) (plainBlockEvents t) =
      MarkdownSpanWrapper.text (plainCfg w flw) initState t := rfl
  have htext : MarkdownSpanWrapper.text (plainCfg w flw) initState t =
      wrapTextLoop (plainCfg w flw) ((flw : Nat) : ℚ) true initState
        (pySplitChar ' ' t) := by
    unfold MarkdownSpanWrapper.text
    rw [hesc]
    simp [initState, optTruthy, appliedWidth, plainCfg, defaultConfig,
      WrapperConfig.ofKwargs]
  have hsp : ∀ p ∈ pySplitChar ' ' t, p ≠ "" ∧ ' ' ∉ p.data :=
    fun p hmem => ⟨hp p hmem, pySplitChar_pieces_no_sep ' ' t p hmem⟩
  obtain ⟨g, gs, hsplit⟩ : ∃ g gs, pySplitChar ' ' t = g :: gs := by
    cases hs : pySplitChar ' ' t with
    | nil => rw [hs] at hlen; exact absurd hlen (by decide)
    | cons g gs => exact ⟨g, gs, rfl⟩
  have hw : wordsOfLines (wrapLines (plainCfg w flw) (plainBlockEvents t)) =
      pySplitChar ' ' t := by
    unfold wrapLines
    rw [wordsOfLines_finalLinesOf rfl rfl, hrun, htext, hsplit,
      wrapTextLoop_first_cons _ _ _ rfl,
      wrapTextLoop_words rfl rfl gs _ _
        (fun x hx => hsp x (hsplit ▸ List.mem_cons_of_mem g hx))]
    have hg := hsp g (hsplit ▸ List.mem_cons_self g gs)
    show wordsOfLines initState.output ++ wordsOfStr ("" ++ g) ++ gs = g :: gs
    rw [string_empty_append, wordsOfStr_single hg.1 hg.2]
    simp [wordsOfLines, initState]
  exact ⟨hw, by rw [hw, pyJoin_pySplit]⟩

/-! ## Single words: one line, and over-length words kept whole -/

theorem escapeDelimiterRun_plain (w flw : Nat) (t : String)
    (ht1 : t ≠ "*") (ht2 : t ≠ "`") :
    escapeDelimiterRun (plainCfg w flw) t = t := by
  unfold escapeDelimiterRun
  have e1 : (plainCfg w flw).italic_start_string = "*" := rfl
  have e2 : (plainCfg w flw).code_start_string = "`" := by
    show pyFirstCharString "`" = "`"
    decide
  have e3 : (plainCfg w flw).code_end_string = "`" := by
    show pyFirstCharString "`" = "`"
    decide
  have e4 : (plainCfg w flw).italic_end_string = "*" := rfl
  rw [e1, e2, e3, e4, if_neg ht1, if_neg ht2, if_neg ht2, if_neg ht1]

/-- The delimiter escaping of the default configuration either keeps the run
or protects it with one backslash. -/
theorem escapeDelimiterRun_default_cases (w flw : Nat) (t : String) :
    escapeDelimiterRun (plainCfg w flw) t = t ∨
      escapeDelimiterRun (plainCfg w flw) t = "\\" ++ t := by
  unfold escapeDelimiterRun
  split_ifs with hf1 hf2 hf3 hf4
  · right; rw [hf1]; rfl
  · right; rw [hf2]; rfl
  · right; rw [hf3]; rfl
  · right; rw [hf4]; rfl
  · left; rfl

/-- Wrapping a single block holding one spaceless text run produces exactly
one line: the (possibly delimiter-escaped) run itself. -/
theorem wrapLines_single_word (w flw : Nat) (t E : String)
    (hE : escapeDelimiterRun (plainCfg w flw) t = E)
    (hEne : E ≠ "") (hEsp : ' ' ∉ E.data) :
    wrapLines (plainCfg w flw) (plainBlockEvents t) = [E] := by
  have hrun : runEvents (plainCfg w flw) (plainBlockEvents t) =
      MarkdownSpanWrapper.text (plainCfg w flw) initState t := rfl
  have htext : MarkdownSpanWrapper.text (plainCfg w flw) initState t =
      wrapTextLoop (plainCfg w flw) ((flw : Nat) : ℚ) true initState
        (pySplitChar ' ' E) := by
    unfold MarkdownSpanWrapper.text
    rw [hE]
    simp [initState, optTruthy, appliedWidth, plainCfg, defaultConfig,
      WrapperConfig.ofKwargs]
  have hsplitE : pySplitChar ' ' E = [E] := by
    unfold pySplitChar
    rw [splitOnChar_of_not_mem hEsp]
    simp [string_mk_data]
  rw [wrapLines, hrun, htext, hsplitE, wrapTextLoop_first_cons _ _ _ rfl]
  show finalLinesOf _ { initState with current_line := "" ++ E } = [E]
  unfold finalLinesOf
  rw [string_empty_append]
  show [] ++ (if E ≠ "" then [appliedIndent _ _ ++ E] else []) = [E]
  rw [if_pos hEne, appliedIndent_of_empty rfl rfl, string_empty_append]
  rfl

/-- **C6.** An inline text run without spaces, wrapped alone in a block with
`first_line_width = width` (any width) and the default configuration, is
emitted as exactly one output line, and that line contains the run (the run
itself, or its backslash-escaped form when it coincides with a one-character
delimiter). -/
theorem spaceless_run_wraps_to_one_line (w : Nat) (t : String)
    (hsp : ∀ c ∈ t.data, c ≠ ' ') (hne : t ≠ "") (hlen : t.length ≤ w) :
    wrapLines (plainCfg w w) (plainBlockEvents t) =
      [escapeDelimiterRun (plainCfg w w) t] ∧
    t.data <:+: (escapeDelimiterRun (plainCfg w w) t).data := by
  have hsp' : ' ' ∉ t.data := fun hm => (hsp ' ' hm) rfl
  obtain hE | hE := escapeDelimiterRun_default_cases w w t
  · rw [hE]
    exact ⟨wrapLines_single_word w w t t hE hne hsp', List.infix_rfl⟩
  · have hdata : ("\\" ++ t).data = '\\' :: t.data := by
      rw [string_data_append]
      rfl
    have hne2 : ("\\" ++ t) ≠ "" := by
      intro hc
      have := congrArg String.data hc
      rw [hdata] at this
      cases this
    have hsp2 : ' ' ∉ ("\\" ++ t).data := by
      rw [hdata]
      intro hm
      rcases List.mem_cons.mp hm with h0 | h0
      · cases h0
      · exact hsp' h0
    rw [hE, hdata]
    exact ⟨wrapLines_single_word w w t _ hE hne2 hsp2, (List.suffix_cons '\\' t.data).isInfix⟩

/-- Witness for C6 at `t = "hello"`, `width = 10`. -/
theorem spaceless_run_wraps_to_one_line_witness :
    wrapLines (plainCfg 10 10) (plainBlockEvents "hello") =
      [escapeDelimiterRun (plainCfg 10 10) "hello"] ∧
    ("hello").data <:+: (escapeDelimiterRun (plainCfg 10 10) "hello").data :=
  spaceless_run_wraps_to_one_line 10 "hello" (by decide) (by decide) (by decide)

theorem optTruthy_none : optTruthy none = false := by decide

theorem wrapTextLoop_aspan (cfg : WrapperConfig) (gs : List String) :
    ∀ (q : ℚ) (f : Bool) (st : WrapperState),
      (wrapTextLoop cfg q f st gs).aspan_href = st.aspan_href := by
  induction gs with
  | nil => intro q f st; rfl
  | cons g gs ih =>
    intro q f st
    unfold wrapTextLoop
    split_ifs with h1 h2 h3 <;> simp [ih]

theorem wrapTextLoop_mem_output (cfg : WrapperConfig) (gs : List String) :
    ∀ (q : ℚ) (f : Bool) (st : WrapperState) (l : String),
      l ∈ st.output → l ∈ (wrapTextLoop cfg q f st gs).output := by
  induction gs with
  | nil => intro q f st l hl; exact hl
  | cons g gs ih =>
    intro q f st l hl
    unfold wrapTextLoop
    split_ifs with h1 h2 h3
    · exact ih _ _ _ _ (List.mem_append_left _ hl)
    · exact ih _ _ _ _ hl
    · exact ih _ _ _ _ hl
    · exact ih _ _ _ _ hl

theorem appliedWidth_cases (cfg : WrapperConfig) (st : WrapperState) :
    ((appliedWidth cfg st : Nat) : ℚ) = ((cfg.width : Nat) : ℚ) ∨
      ((appliedWidth cfg st : Nat) : ℚ) = ((cfg.first_line_width : Nat) : ℚ) := by
  unfold appliedWidth
  split_ifs
  · exact Or.inl rfl
  · exact Or.inr rfl

/-- A buffer holding a word longer than both configured widths is flushed as
its own line: the word survives as a whole output line, whatever text runs
follow. -/
theorem wrapTextLoop_cur_long_word {cfg : WrapperConfig} (h1 : cfg.indent = "")
    (h2 : cfg.first_line_indent = "") (word : String) (hne : word ≠ "")
    (hw : cfg.width < word.length) (hflw : cfg.first_line_width < word.length)
    (gs : List String) (q : ℚ) (st : WrapperState)
    (hcur : st.current_line = word)
    (hq : q = ((cfg.width : Nat) : ℚ) ∨ q = ((cfg.first_line_width : Nat) : ℚ)) :
    word ∈ finalLinesOf cfg (wrapTextLoop cfg q false st gs) := by
  have hlenw : word.length ≤ st.current_line.length := by rw [hcur]
  cases gs with
  | nil =>
    have hval : wrapTextLoop cfg q false st [] = st := rfl
    unfold finalLinesOf
    rw [hval, hcur, if_pos hne, appliedIndent_of_empty h1 h2, string_empty_append]
    exact List.mem_append_right _ (List.mem_singleton.mpr rfl)
  | cons g gs =>
    have hov : ((st.current_line.length + g.length + 1 : Nat) : ℚ) > q := by
      rcases hq with hq | hq <;> rw [hq]
      · exact_mod_cast
          (show cfg.width < st.current_line.length + g.length + 1 by omega)
      · exact_mod_cast
          (show cfg.first_line_width < st.current_line.length + g.length + 1 by omega)
    unfold wrapTextLoop
    rw [if_pos hov, if_pos (Or.inl rfl)]
    dsimp only
    have hmem : word ∈ st.output ++ [appliedIndent cfg st ++ st.current_line] := by
      rw [appliedIndent_of_empty h1 h2, string_empty_append, hcur]
      exact List.mem_append_right _ (List.mem_singleton.mpr rfl)
    exact List.mem_append_left _ (wrapTextLoop_mem_output cfg gs _ _ _ _ hmem)

/-- A word of the remaining run that is longer than both configured widths
ends up as a whole output line. -/
theorem wrapTextLoop_long_word_mem {cfg : WrapperConfig} (h1 : cfg.indent = "")
    (h2 : cfg.first_line_indent = "") (word : String) (hne : word ≠ "")
    (hw : cfg.width < word.length) (hflw : cfg.first_line_width < word.length)
    (gs : List String) :
    ∀ (q : ℚ) (st : WrapperState), word ∈ gs → st.aspan_href = none →
      (q = ((cfg.width : Nat) : ℚ) ∨ q = ((cfg.first_line_width : Nat) : ℚ)) →
      word ∈ finalLinesOf cfg (wrapTextLoop cfg q false st gs) := by
  induction gs with
  | nil => intro q st hmem; cases hmem
  | cons g gs ih =>
    intro q st hmem hasp hq
    rcases List.mem_cons.mp hmem with hgw | hmem'
    · rw [hgw] at hne hw hflw ⊢
      have hov : ((st.current_line.length + g.length + 1 : Nat) : ℚ) > q := by
        rcases hq with hq | hq <;> rw [hq]
        · exact_mod_cast
            (show cfg.width < st.current_line.length + g.length + 1 by omega)
        · exact_mod_cast
            (show cfg.first_line_width < st.current_line.length + g.length + 1 by omega)
      unfold wrapTextLoop
      rw [if_pos hov, if_pos (Or.inl rfl)]
      dsimp only
      rw [hasp, optTruthy_none]
      rw [if_neg (by decide : ¬ ((false : Bool) = true))]
      exact wrapTextLoop_cur_long_word h1 h2 g hne hw hflw gs _ _
        (string_empty_append g) (appliedWidth_cases cfg _)
    · by_cases hov : ((st.current_line.length + g.length + 1 : Nat) : ℚ) > q
      · unfold wrapTextLoop
        rw [if_pos hov, if_pos (Or.inl rfl)]
        dsimp only
        rw [hasp, optTruthy_none]
        rw [if_neg (by decide : ¬ ((false : Bool) = true))]
        exact ih _ _ hmem' rfl (appliedWidth_cases cfg _)
      · unfold wrapTextLoop
        rw [if_neg hov, if_pos rfl]
        dsimp only
        exact ih _ _ hmem' hasp hq

/-- **C7.** The plain-text branch never fails on a word wider than the
configuration: a word strictly longer than both applicable widths (and not a
delimiter run) is emitted whole as one of the output lines — an over-length
line, since the emitted line is the word itself and the word is longer than
the width. (The embedding is total by construction, mirroring that the Python
`text` method raises no exception on any width configuration.) -/
theorem long_word_emitted_whole (w flw : Nat) (t word : String)
    (hmem : word ∈ pySplitChar ' ' t) (hne : word ≠ "")
    (ht1 : t ≠ "*") (ht2 : t ≠ "`")
    (hw : w < word.length) (hflw : flw < word.length) :
    word ∈ wrapLines (plainCfg w flw) (plainBlockEvents t) := by
  have hesc : escapeDelimiterRun (plainCfg w flw) t = t :=
    escapeDelimiterRun_plain w flw t ht1 ht2
  have hrun : runEvents (plainCfg w flw) (plainBlockEvents t) =
      MarkdownSpanWrapper.text (plainCfg w flw) initState t := rfl
  have htext : MarkdownSpanWrapper.text (plainCfg w flw) initState t =
      wrapTextLoop (plainCfg w flw) ((flw : Nat) : ℚ) true initState
        (pySplitChar ' ' t) := by
    unfold MarkdownSpanWrapper.text
    rw [hesc]
    simp [initState, optTruthy, appliedWidth, plainCfg, defaultConfig,
      WrapperConfig.ofKwargs]
  obtain ⟨g, gs, hsplit⟩ : ∃ g gs, pySplitChar ' ' t = g :: gs := by
    cases hs : pySplitChar ' ' t with
    | nil => rw [hs] at hmem; cases hmem
    | cons g gs => exact ⟨g, gs, rfl⟩
  rw [wrapLines, hrun, htext, hsplit, wrapTextLoop_first_cons _ _ _ rfl]
  rw [hsplit] at hmem
  rcases List.mem_cons.mp hmem with hgw | hmem'
  · subst hgw
    exact wrapTextLoop_cur_long_word rfl rfl word hne hw hflw gs _ _
      (string_empty_append word) (Or.inr rfl)
  · exact wrapTextLoop_long_word_mem rfl rfl word hne hw hflw gs _ _
      hmem' rfl (Or.inr rfl)

/-- Witness for C7: the word `aaaaaa` (6 characters) with widths 3 appears
whole among the output lines. -/
theorem long_word_emitted_whole_witness :
    "aaaaaa" ∈ wrapLines (plainCfg 3 3) (plainBlockEvents "bb aaaaaa cc") :=
  long_word_emitted_whole 3 3 "bb aaaaaa cc" "aaaaaa" (by decide) (by decide)
    (by decide) (by decide) (by decide) (by decide)

/-- Witness for C5 at `"aa bb cc"` with width 4: every word survives and the
rejoined output reproduces the input. -/
theorem plain_wrapping_preserves_words_witness :
    wordsOfLines (wrapLines (plainCfg 4 4) (plainBlockEvents "aa bb cc")) =
      pySplitChar ' ' "aa bb cc" ∧
    pyJoinChar ' '
        (wordsOfLines (wrapLines (plainCfg 4 4) (plainBlockEvents "aa bb cc"))) =
      "aa bb cc" :=
  plain_wrapping_preserves_words 4 4 "aa bb cc" (by decide) (by decide)

/-! ## Theorems about `escape_links_titles` -/

/-- **C8 (counterexample).** Not every link-title match in the input is
rewritten: here the first match's global replacement also mutates the text of
the second match (the first matched string recurs as a prefix of the second
match), so the second payload is left without its escaping and re-quoting,
unlike the per-match rewriting the claim describes. -/
theorem escape_links_titles_skips_mutated_match :
    escape_links_titles "[d](h \"x\"y\") [d](h \"x\"y\"EXTRA)" =
      "[d](h \"x\\\"y\") [d](h \"x\\\"y\"EXTRA)" ∧
    escape_links_titles_per_match "[d](h \"x\"y\") [d](h \"x\"y\"EXTRA)" =
      "[d](h \"x\\\"y\") [d](h \"x\\\"y\\\"EXTR\")" ∧
    escape_links_titles "[d](h \"x\"y\") [d](h \"x\"y\"EXTRA)" ≠
      escape_links_titles_per_match "[d](h \"x\"y\") [d](h \"x\"y\"EXTRA)" := by
  refine ⟨by decide, by decide, by decide⟩

/-- **C8 (amended).** `escape_links_titles` performs one global replacement
per link-title match, in match order — every match is processed, not only the
first, and a later match's payload is rewritten whenever the earlier
replacements left its matched text intact (here: two independent titles are
both escaped and re-quoted) — and it returns the text unchanged, hence
idempotent, when the text contains no link titles. -/
theorem escape_links_titles_all_matches :
    (∀ t : String, findallTitles t = [] →
      escape_links_titles t = t ∧
      escape_links_titles (escape_links_titles t) = escape_links_titles t) ∧
    escape_links_titles "[a](h \"t\"1\") [b](k \"u\"2\")" =
      "[a](h \"t\\\"1\") [b](k \"u\\\"2\")" := by
  constructor
  · intro t ht
    have h1 : escape_links_titles t = t := by
      unfold escape_links_titles
      rw [ht]
      rfl
    refine ⟨h1, ?_⟩
    rw [h1]
    exact h1
  · decide

/-- Witness for C8 (amended) on a text with no link titles. -/
theorem escape_links_titles_all_matches_witness :
    escape_links_titles "plain text, no links" = "plain text, no links" ∧
    escape_links_titles (escape_links_titles "plain text, no links") =
      escape_links_titles "plain text, no links" :=
  escape_links_titles_all_matches.1 "plain text, no links" (by decide)

end Mdpo
